import Mathlib

/-
  Verification development for the sugiru-kedo interpreter front end
  (lexer, Pratt parser, tree-walking evaluator).

  Go strings are modelled as lists of byte values (`List Nat`); `strBytes`
  converts an ASCII Lean string literal to its byte list.  Go's `nil`
  interface values are modelled as `Option.none`.  Machine integers
  (`int64`) are modelled as `Int` together with an explicit two's-complement
  reduction `wrap64` applied exactly where Go arithmetic can overflow.
-/

/-- Bytes of an ASCII string literal (Go source strings are byte sequences). -/
def strBytes (s : String) : List Nat := s.data.map Char.toNat

/-- Two's-complement reduction of an integer into the `int64` range,
as performed implicitly by Go's 64-bit arithmetic. -/
def wrap64 (z : Int) : Int := (z + 2 ^ 63) % 2 ^ 64 - 2 ^ 63

/-- Modelled from the spec: the `sugiru/token` package is not under `src/`
(the lexer and parser only import it).  `TokenKind` is the closed
enumeration of §3: illegal, end-of-input, identifier, integer literal,
operators `= + - ! * / < > == !=`, delimiters `, ;`, brackets `( ) { }`,
keywords `fn let true false if else return`. -/
inductive TokenType where
  | ILLEGAL
  | EOF
  | IDENT
  | INT
  | ASSIGN
  | PLUS
  | MINUS
  | BANG
  | ASTERISK
  | SLASH
  | LT
  | GT
  | EQ
  | NOT_EQ
  | COMMA
  | SEMICOLON
  | LPAREN
  | RPAREN
  | LBRACE
  | RBRACE
  | FUNCTION
  | LET
  | TRUE
  | FALSE
  | IF
  | ELSE
  | RETURN
  deriving DecidableEq, Repr

/-- Modelled from the spec: the display string of a token type (Go's
`TokenType` is a string type; the parser interpolates it into error
messages with `%s`).  Operator and delimiter types display as their
spelling (§3, §4.2: the expected token type `=` is reported as `=`);
class and keyword types display as their uppercase names. -/
def typeBytes : TokenType → List Nat
  | .ILLEGAL => strBytes "ILLEGAL"
  | .EOF => strBytes "EOF"
  | .IDENT => strBytes "IDENT"
  | .INT => strBytes "INT"
  | .ASSIGN => strBytes "="
  | .PLUS => strBytes "+"
  | .MINUS => strBytes "-"
  | .BANG => strBytes "!"
  | .ASTERISK => strBytes "*"
  | .SLASH => strBytes "/"
  | .LT => strBytes "<"
  | .GT => strBytes ">"
  | .EQ => strBytes "=="
  | .NOT_EQ => strBytes "!="
  | .COMMA => strBytes ","
  | .SEMICOLON => strBytes ";"
  | .LPAREN => strBytes "("
  | .RPAREN => strBytes ")"
  | .LBRACE => strBytes "\x7b"
  | .RBRACE => strBytes "\x7d"
  | .FUNCTION => strBytes "FUNCTION"
  | .LET => strBytes "LET"
  | .TRUE => strBytes "TRUE"
  | .FALSE => strBytes "FALSE"
  | .IF => strBytes "IF"
  | .ELSE => strBytes "ELSE"
  | .RETURN => strBytes "RETURN"

/-- `token.Token`: a kind together with its literal text (field `Type` is
renamed `ttype`, since `Type` is reserved in Lean). -/
structure Token where
  ttype : TokenType
  literal : List Nat
  deriving DecidableEq, Repr

/-- Modelled from the spec: `token.LookupIdent` resolves an identifier
against the fixed keyword table `fn let true false if else return` (§4.1);
unresolved names are `IDENT`. -/
def LookupIdent (ident : List Nat) : TokenType :=
  if ident = strBytes "fn" then .FUNCTION
  else if ident = strBytes "let" then .LET
  else if ident = strBytes "true" then .TRUE
  else if ident = strBytes "false" then .FALSE
  else if ident = strBytes "if" then .IF
  else if ident = strBytes "else" then .ELSE
  else if ident = strBytes "return" then .RETURN
  else .IDENT

/-- `lexer.Lexer` (src/sugiru/lexer/lexer.go): input bytes plus the cursor
state `position`, `readPosition` and the byte under examination `ch`. -/
structure Lexer where
  input : List Nat
  position : Nat
  readPosition : Nat
  ch : Nat
  deriving DecidableEq, Repr

/-- `Lexer.readChar`: load the byte at `readPosition` (0 at end of input)
and advance the cursor. -/
def Lexer.readChar (l : Lexer) : Lexer :=
  { l with
    ch := if l.input.length ≤ l.readPosition then 0 else l.input.getD l.readPosition 0
    position := l.readPosition
    readPosition := l.readPosition + 1 }

/-- `lexer.New`: build a lexer and prime it with one `readChar`. -/
def Lexer.New (input : List Nat) : Lexer :=
  Lexer.readChar { input := input, position := 0, readPosition := 0, ch := 0 }

/-- `lexer.newToken`: a token holding one byte as its literal. -/
def newToken (tokenType : TokenType) (ch : Nat) : Token :=
  { ttype := tokenType, literal := [ch] }

/-- `lexer.isLetter`: `a`-`z`, `A`-`Z` or `_`. -/
def isLetter (ch : Nat) : Bool :=
  (97 ≤ ch && ch ≤ 122) || (65 ≤ ch && ch ≤ 90) || ch == 95

/-- `lexer.isDigit`: `0`-`9`. -/
def isDigit (ch : Nat) : Bool := 48 ≤ ch && ch ≤ 57

/-- The whitespace set of `Lexer.skipWhiteSpace`: space, tab, LF, CR. -/
def isWhitespaceB (ch : Nat) : Bool := ch == 32 || ch == 9 || ch == 10 || ch == 13

/-- A `while p(ch) { readChar() }` loop, with explicit fuel.  Every loop in
the lexer passes fuel `input.length + 1`, which is shown below to be enough
for every state reachable from `Lexer.New`. -/
def readWhile (p : Nat → Bool) : Nat → Lexer → Lexer
  | 0, l => l
  | f + 1, l => if p l.ch then readWhile p f l.readChar else l

/-- `Lexer.skipWhiteSpace`: consume whitespace bytes. -/
def Lexer.skipWhiteSpace (l : Lexer) : Lexer :=
  readWhile isWhitespaceB (l.input.length + 1) l

/-- `Lexer.fromPosToCurrent`, generalised: the slice `input[start:stop]`. -/
def sliceBytes (input : List Nat) (start stop : Nat) : List Nat :=
  (input.drop start).take (stop - start)

/-- `Lexer.readIdentifier`: consume a maximal run of letters and return the
consumed slice. -/
def Lexer.readIdentifier (l : Lexer) : List Nat × Lexer :=
  let l' := readWhile isLetter (l.input.length + 1) l
  (sliceBytes l'.input l.position l'.position, l')

/-- `Lexer.readNumber`: consume a maximal run of digits and return the
consumed slice. -/
def Lexer.readNumber (l : Lexer) : List Nat × Lexer :=
  let l' := readWhile isDigit (l.input.length + 1) l
  (sliceBytes l'.input l.position l'.position, l')

/-- The body of `Lexer.NextToken` after its `skipWhiteSpace` call: match
the single-byte cases `=` `;` `(` `)` `,` `+` `{` `}`, end of input,
identifiers/keywords, integer literals, and otherwise `ILLEGAL`. -/
def Lexer.nextTokenCore (l : Lexer) : Token × Lexer :=
  if l.ch = 61 then (newToken .ASSIGN l.ch, l.readChar)
  else if l.ch = 59 then (newToken .SEMICOLON l.ch, l.readChar)
  else if l.ch = 40 then (newToken .LPAREN l.ch, l.readChar)
  else if l.ch = 41 then (newToken .RPAREN l.ch, l.readChar)
  else if l.ch = 44 then (newToken .COMMA l.ch, l.readChar)
  else if l.ch = 43 then (newToken .PLUS l.ch, l.readChar)
  else if l.ch = 123 then (newToken .LBRACE l.ch, l.readChar)
  else if l.ch = 125 then (newToken .RBRACE l.ch, l.readChar)
  else if l.ch = 0 then ({ ttype := .EOF, literal := [] }, l.readChar)
  else if isLetter l.ch then
    let r := l.readIdentifier
    ({ ttype := LookupIdent r.1, literal := r.1 }, r.2)
  else if isDigit l.ch then
    let r := l.readNumber
    ({ ttype := .INT, literal := r.1 }, r.2)
  else (newToken .ILLEGAL l.ch, l.readChar)

/-- `Lexer.NextToken` of src/sugiru/lexer/lexer.go: skip whitespace, then
classify the current byte. -/
def Lexer.NextToken (l : Lexer) : Token × Lexer := l.skipWhiteSpace.nextTokenCore

/-- The lexer state after `n` calls of `Lexer.NextToken`. -/
def lexStateAt (l : Lexer) : Nat → Lexer
  | 0 => l
  | n + 1 => (Lexer.NextToken (lexStateAt l n)).2

/-- The token returned by call number `n + 1` of `Lexer.NextToken`. -/
def lexTokenAt (l : Lexer) (n : Nat) : Token := (Lexer.NextToken (lexStateAt l n)).1

/-- `Lexer.peekChar`: the byte at `readPosition` without advancing. -/
def Lexer.peekChar (l : Lexer) : Nat :=
  if l.input.length ≤ l.readPosition then 0 else l.input.getD l.readPosition 0

/-- Modelled from the spec: the lexer revision that accompanies the Pratt
parser is not under `src/` (the parser's dispatch tables consume the
operator tokens `- ! * / < > == !=`, which the lexer file under `src/`
never produces).  Modelled from §3 and §4.1: skip whitespace, match
single-character operator/delimiter tokens by exact byte value with the
two-character sequences `==` and `!=` lexing as the equality/inequality
tokens, resolve letter runs against the keyword table, lex digit runs as
integer literals, and turn every unmatched byte into `ILLEGAL`. -/
def Lexer.NextTokenFull (l : Lexer) : Token × Lexer :=
  let l := l.skipWhiteSpace
  if l.ch = 61 then
    if l.peekChar = 61 then ({ ttype := .EQ, literal := [61, 61] }, l.readChar.readChar)
    else (newToken .ASSIGN l.ch, l.readChar)
  else if l.ch = 33 then
    if l.peekChar = 61 then ({ ttype := .NOT_EQ, literal := [33, 61] }, l.readChar.readChar)
    else (newToken .BANG l.ch, l.readChar)
  else if l.ch = 43 then (newToken .PLUS l.ch, l.readChar)
  else if l.ch = 45 then (newToken .MINUS l.ch, l.readChar)
  else if l.ch = 42 then (newToken .ASTERISK l.ch, l.readChar)
  else if l.ch = 47 then (newToken .SLASH l.ch, l.readChar)
  else if l.ch = 60 then (newToken .LT l.ch, l.readChar)
  else if l.ch = 62 then (newToken .GT l.ch, l.readChar)
  else if l.ch = 59 then (newToken .SEMICOLON l.ch, l.readChar)
  else if l.ch = 44 then (newToken .COMMA l.ch, l.readChar)
  else if l.ch = 40 then (newToken .LPAREN l.ch, l.readChar)
  else if l.ch = 41 then (newToken .RPAREN l.ch, l.readChar)
  else if l.ch = 123 then (newToken .LBRACE l.ch, l.readChar)
  else if l.ch = 125 then (newToken .RBRACE l.ch, l.readChar)
  else if l.ch = 0 then ({ ttype := .EOF, literal := [] }, l.readChar)
  else if isLetter l.ch then
    let r := l.readIdentifier
    ({ ttype := LookupIdent r.1, literal := r.1 }, r.2)
  else if isDigit l.ch then
    let r := l.readNumber
    ({ ttype := .INT, literal := r.1 }, r.2)
  else (newToken .ILLEGAL l.ch, l.readChar)

/-
  The AST (package `sugiru/ast`).  `src/sugiru/ast/ast.go` declares the
  `Node`/`Statement`/`Expression` interfaces and the `Program`,
  `LetStatement` and `Identifier` nodes; the remaining node files are not
  under `src/` and are modelled from the spec's data model (§3), whose
  field lists the parser under `src/unnamed/part_002` constructs.

  Go's interface values are dynamically dispatched, so all node variants
  are gathered in one inductive type.  A `nil` child (a parse function
  returning no node) is `Option.none`.  `LetStatementNil` is the typed-nil
  `*ast.LetStatement` pointer that `parseLetStatement` returns on failure:
  wrapped in the `ast.Statement` interface it is a NON-nil interface value
  carrying a nil pointer, distinct from the nil interface (`none`).
-/
inductive Ast where
  | Program (statements : List Ast)
  | LetStatement (name : List Nat) (value : Option Ast)
  | LetStatementNil
  | ReturnStatement (returnValue : Option Ast)
  | ExpressionStatement (expression : Option Ast)
  | BlockStatement (statements : List Ast)
  | Identifier (value : List Nat)
  | IntegerLiteral (value : Int)
  | Boolean (value : Bool)
  | PrefixExpression (operator : List Nat) (right : Option Ast)
  | InfixExpression (operator : List Nat) (left : Option Ast) (right : Option Ast)
  | IfExpression (condition : Option Ast) (thenBlock : Option Ast) (elseBlock : Option Ast)
  | FunctionLiteral (parameters : Option (List (List Nat))) (body : Option Ast)
  | CallExpression (function : Option Ast) (arguments : Option (List (Option Ast)))

/-- The statement list of a `Program` node. -/
def programStatements : Ast → List Ast
  | .Program stmts => stmts
  | _ => []

/-
  The Pratt parser of src/unnamed/part_002 (package `sugiru/parser`).
-/

/-- `parser.Parser`: lexer handle, the two-token lookahead window, and the
accumulated error strings. -/
structure ParserS where
  l : Lexer
  curToken : Token
  peekToken : Token
  errors : List (List Nat)
  deriving DecidableEq, Repr

/-- `Parser.nextToken`: shift the window by one token pulled from the lexer. -/
def ParserS.nextToken (p : ParserS) : ParserS :=
  let r := p.l.NextTokenFull
  { p with curToken := p.peekToken, peekToken := r.1, l := r.2 }

/-- `parser.New` / `Parser.init`: prime `curToken` and `peekToken` with two
pulls.  (Go's zero `Token` that the two pulls overwrite is rendered as an
`ILLEGAL` token with empty literal; both fields are overwritten before any
use.) -/
def ParserS.New (input : List Nat) : ParserS :=
  let p : ParserS :=
    { l := Lexer.New input
      curToken := { ttype := .ILLEGAL, literal := [] }
      peekToken := { ttype := .ILLEGAL, literal := [] }
      errors := [] }
  p.nextToken.nextToken

/-- `Parser.peekError`: append "expected next token to be T, got A instead". -/
def peekError (t : TokenType) (p : ParserS) : ParserS :=
  { p with
    errors := p.errors ++
      [strBytes "expected next token to be " ++ typeBytes t ++
        strBytes ", got " ++ typeBytes p.peekToken.ttype ++ strBytes " instead"] }

/-- `Parser.noPrefixParseFnError`: append "no prefix parse function for T found". -/
def noPrefixParseFnError (t : TokenType) (p : ParserS) : ParserS :=
  { p with
    errors := p.errors ++
      [strBytes "no prefix parse function for " ++ typeBytes t ++ strBytes " found"] }

/-- `Parser.expectPeek`: advance past an expected token, or record a peek
error without advancing. -/
def expectPeek (t : TokenType) (p : ParserS) : Bool × ParserS :=
  if p.peekToken.ttype = t then (true, p.nextToken) else (false, peekError t p)

/-- Precedence levels (`iota` block): LOWEST .. CALL. -/
def LOWEST : Nat := 1

/-- Precedence of `==` and `!=`. -/
def EQUALS : Nat := 2

/-- Precedence of `<` and `>`. -/
def LESSGREATER : Nat := 3

/-- Precedence of `+` and binary `-`. -/
def SUM : Nat := 4

/-- Precedence of `*` and `/`. -/
def PRODUCT : Nat := 5

/-- Precedence of prefix `-X` / `!X` (named `PREFIX` in the source). -/
def PREFIX_LEVEL : Nat := 6

/-- Precedence of a call `fn()`. -/
def CALL : Nat := 7

/-- The `precedences` table keyed by token type. -/
def precedenceOf : TokenType → Option Nat
  | .EQ => some EQUALS
  | .NOT_EQ => some EQUALS
  | .LT => some LESSGREATER
  | .GT => some LESSGREATER
  | .PLUS => some SUM
  | .MINUS => some SUM
  | .SLASH => some PRODUCT
  | .ASTERISK => some PRODUCT
  | .LPAREN => some CALL
  | _ => none

/-- `Parser.peekPrecedence`: the table entry for the peek token, or LOWEST. -/
def peekPrecedence (p : ParserS) : Nat := (precedenceOf p.peekToken.ttype).getD LOWEST

/-- `Parser.curPrecedence`: the table entry for the current token, or LOWEST. -/
def curPrecedence (p : ParserS) : Nat := (precedenceOf p.curToken.ttype).getD LOWEST

/-- `strconv.ParseInt(s, 0, 64)` restricted to the digit-run literals the
lexer produces: base 0 reads a leading `0` as an octal prefix, digits `8`
and `9` are invalid octal digits, and values outside the `int64` range are
an error (`none`). -/
def goParseInt (lit : List Nat) : Option Int :=
  let digitsIn : Nat → List Nat → Option Nat := fun base ds =>
    ds.foldl
      (fun acc d =>
        match acc with
        | none => none
        | some n => if 48 ≤ d ∧ d - 48 < base ∧ d ≤ 57 then some (n * base + (d - 48)) else none)
      (some 0)
  match lit with
  | [] => none
  | [48] => some 0
  | 48 :: rest =>
    match digitsIn 8 rest with
    | none => none
    | some n => if n ≤ 2 ^ 63 - 1 then some (n : Int) else none
  | ds =>
    match digitsIn 10 ds with
    | none => none
    | some n => if n ≤ 2 ^ 63 - 1 then some (n : Int) else none

/-- `Parser.parseIdentifier` (prefix handler for `IDENT`). -/
def parseIdentifier (p : ParserS) : Option Ast × ParserS :=
  (some (.Identifier p.curToken.literal), p)

/-- `Parser.parseIntegerLiteral` (prefix handler for `INT`): conversion
failure records "could not parse %q as integer" and yields nil. -/
def parseIntegerLiteral (p : ParserS) : Option Ast × ParserS :=
  match goParseInt p.curToken.literal with
  | none =>
    (none,
      { p with
        errors := p.errors ++
          [strBytes "could not parse " ++ [34] ++ p.curToken.literal ++ [34] ++
            strBytes " as integer"] })
  | some v => (some (.IntegerLiteral v), p)

/-- `Parser.parseBoolean` (prefix handler for `TRUE`/`FALSE`). -/
def parseBoolean (p : ParserS) : Option Ast × ParserS :=
  (some (.Boolean (p.curToken.ttype = .TRUE)), p)

/-
  The mutually recursive parse functions of src/unnamed/part_002, with
  explicit fuel (first argument); the source's registration tables
  (`prefixParserFns` / `infixParseFns`, populated once in `init`) are
  rendered as the fixed dispatch matches inside `parseExpression` and
  `parseExprLoop`.  `ParseProgram` below passes fuel large enough for the
  concrete programs examined here; fuel exhaustion yields a nil node and
  is unreachable on those programs (the theorems below evaluate concrete
  runs, so an exhausted fuel would surface as a failing proof).
-/
mutual

/-- `Parser.parseStatement`: dispatch on the current token type.  The Go
function returns the concrete pointers of the three branches through the
`ast.Statement` interface, so its interface result is never the nil
interface — a nil `*ast.LetStatement` becomes the typed-nil statement
`Ast.LetStatementNil` rather than `none`. -/
def parseStatement : Nat → ParserS → Option Ast × ParserS
  | 0, p => (none, p)
  | f + 1, p =>
    match p.curToken.ttype with
    | .LET =>
      let r := parseLetStatement f p
      (some
        (match r.1 with
          | none => Ast.LetStatementNil
          | some nv => Ast.LetStatement nv.1 nv.2), r.2)
    | .RETURN =>
      let r := parseReturnStatement f p
      (some r.1, r.2)
    | _ =>
      let r := parseExpressionStatement f p
      (some r.1, r.2)

/-- `Parser.parseLetStatement`: `let IDENT = expr [;]`; a failed
expectation returns the nil pointer (`none`). -/
def parseLetStatement : Nat → ParserS → Option (List Nat × Option Ast) × ParserS
  | 0, p => (none, p)
  | f + 1, p =>
    match expectPeek .IDENT p with
    | (false, p') => (none, p')
    | (true, p') =>
      let name := p'.curToken.literal
      match expectPeek .ASSIGN p' with
      | (false, p₂) => (none, p₂)
      | (true, p₂) =>
        let p₃ := p₂.nextToken
        let r := parseExpression f LOWEST p₃
        let p₄ := if r.2.peekToken.ttype = .SEMICOLON then r.2.nextToken else r.2
        (some (name, r.1), p₄)

/-- `Parser.parseReturnStatement`: `return expr [;]`. -/
def parseReturnStatement : Nat → ParserS → Ast × ParserS
  | 0, p => (.ReturnStatement none, p)
  | f + 1, p =>
    let p' := p.nextToken
    let r := parseExpression f LOWEST p'
    let p₂ := if r.2.peekToken.ttype = .SEMICOLON then r.2.nextToken else r.2
    (.ReturnStatement r.1, p₂)

/-- `Parser.parseExpressionStatement`: one expression at LOWEST precedence,
optional `;`; the statement node itself is always constructed, even when
the expression is nil. -/
def parseExpressionStatement : Nat → ParserS → Ast × ParserS
  | 0, p => (.ExpressionStatement none, p)
  | f + 1, p =>
    let r := parseExpression f LOWEST p
    let p₂ := if r.2.peekToken.ttype = .SEMICOLON then r.2.nextToken else r.2
    (.ExpressionStatement r.1, p₂)

/-- `Parser.parseExpression`: look up the prefix handler for the current
token (the `init` registrations: IDENT, INT, BANG, MINUS, TRUE, FALSE,
LPAREN, IF, FUNCTION); with no handler, record the error and return nil;
otherwise run it and enter the infix loop. -/
def parseExpression : Nat → Nat → ParserS → Option Ast × ParserS
  | 0, _, p => (none, p)
  | f + 1, prec, p =>
    match p.curToken.ttype with
    | .IDENT =>
      let r := parseIdentifier p
      parseExprLoop f prec r.1 r.2
    | .INT =>
      let r := parseIntegerLiteral p
      parseExprLoop f prec r.1 r.2
    | .BANG =>
      let r := parsePrefixExpression f p
      parseExprLoop f prec r.1 r.2
    | .MINUS =>
      let r := parsePrefixExpression f p
      parseExprLoop f prec r.1 r.2
    | .TRUE =>
      let r := parseBoolean p
      parseExprLoop f prec r.1 r.2
    | .FALSE =>
      let r := parseBoolean p
      parseExprLoop f prec r.1 r.2
    | .LPAREN =>
      let r := parseGroupedExpression f p
      parseExprLoop f prec r.1 r.2
    | .IF =>
      let r := parseIfExpression f p
      parseExprLoop f prec r.1 r.2
    | .FUNCTION =>
      let r := parseFunctionExpression f p
      parseExprLoop f prec r.1 r.2
    | t => (none, noPrefixParseFnError t p)

/-- The `for` loop of `Parser.parseExpression`: while the peek token is not
`;` and binds tighter than `prec`, run its infix handler (the `init`
registrations: the eight binary operators and `LPAREN` ↦ call); a peek
token with no handler returns the left expression as-is. -/
def parseExprLoop : Nat → Nat → Option Ast → ParserS → Option Ast × ParserS
  | 0, _, left, p => (left, p)
  | f + 1, prec, left, p =>
    if p.peekToken.ttype ≠ .SEMICOLON ∧ prec < peekPrecedence p then
      match p.peekToken.ttype with
      | .PLUS => parseExprInfixStep f prec left p
      | .MINUS => parseExprInfixStep f prec left p
      | .SLASH => parseExprInfixStep f prec left p
      | .ASTERISK => parseExprInfixStep f prec left p
      | .EQ => parseExprInfixStep f prec left p
      | .NOT_EQ => parseExprInfixStep f prec left p
      | .LT => parseExprInfixStep f prec left p
      | .GT => parseExprInfixStep f prec left p
      | .LPAREN =>
        let p' := p.nextToken
        let r := parseCallExpression f left p'
        parseExprLoop f prec r.1 r.2
      | _ => (left, p)
    else (left, p)

/-- One iteration of the infix loop for a binary operator: advance onto the
operator and let `parseInfixExpression` rewrap the left expression. -/
def parseExprInfixStep : Nat → Nat → Option Ast → ParserS → Option Ast × ParserS
  | 0, _, left, p => (left, p)
  | f + 1, prec, left, p =>
    let p' := p.nextToken
    let r := parseInfixExpression f left p'
    parseExprLoop f prec r.1 r.2

/-- `Parser.parsePrefixExpression`: consume the operator, parse the operand
at PREFIX precedence. -/
def parsePrefixExpression : Nat → ParserS → Option Ast × ParserS
  | 0, p => (none, p)
  | f + 1, p =>
    let op := p.curToken.literal
    let p' := p.nextToken
    let r := parseExpression f PREFIX_LEVEL p'
    (some (.PrefixExpression op r.1), r.2)

/-- `Parser.parseInfixExpression`: capture the operator's own precedence
before advancing, then recurse at that precedence. -/
def parseInfixExpression : Nat → Option Ast → ParserS → Option Ast × ParserS
  | 0, _, p => (none, p)
  | f + 1, left, p =>
    let op := p.curToken.literal
    let prec := curPrecedence p
    let p' := p.nextToken
    let r := parseExpression f prec p'
    (some (.InfixExpression op left r.1), r.2)

/-- `Parser.parseGroupedExpression`: `( expr )`; a missing `)` records a
peek error and yields nil. -/
def parseGroupedExpression : Nat → ParserS → Option Ast × ParserS
  | 0, p => (none, p)
  | f + 1, p =>
    let p' := p.nextToken
    let r := parseExpression f LOWEST p'
    match expectPeek .RPAREN r.2 with
    | (false, p₂) => (none, p₂)
    | (true, p₂) => (r.1, p₂)

/-- `Parser.parseIfExpression`: `if ( cond ) { block } [else { block }]`. -/
def parseIfExpression : Nat → ParserS → Option Ast × ParserS
  | 0, p => (none, p)
  | f + 1, p =>
    match expectPeek .LPAREN p with
    | (false, p') => (none, p')
    | (true, p') =>
      let p₂ := p'.nextToken
      let rc := parseExpression f LOWEST p₂
      match expectPeek .RPAREN rc.2 with
      | (false, p₃) => (none, p₃)
      | (true, p₃) =>
        match expectPeek .LBRACE p₃ with
        | (false, p₄) => (none, p₄)
        | (true, p₄) =>
          let rt := parseBlockStatement f p₄
          if rt.2.peekToken.ttype = .ELSE then
            let p₅ := rt.2.nextToken
            match expectPeek .LBRACE p₅ with
            | (false, p₆) => (none, p₆)
            | (true, p₆) =>
              let re := parseBlockStatement f p₆
              (some (.IfExpression rc.1 (some rt.1) (some re.1)), re.2)
          else (some (.IfExpression rc.1 (some rt.1) none), rt.2)

/-- `Parser.parseBlockStatement`: statements until `}` or end of input; the
block node is always constructed. -/
def parseBlockStatement : Nat → ParserS → Ast × ParserS
  | 0, p => (.BlockStatement [], p)
  | f + 1, p =>
    let p' := p.nextToken
    let r := parseBlockLoop f [] p'
    (.BlockStatement r.1, r.2)

/-- The statement loop of `parseBlockStatement`. -/
def parseBlockLoop : Nat → List Ast → ParserS → List Ast × ParserS
  | 0, acc, p => (acc, p)
  | f + 1, acc, p =>
    if p.curToken.ttype ≠ .RBRACE ∧ p.curToken.ttype ≠ .EOF then
      let r := parseStatement f p
      let acc' :=
        match r.1 with
        | some s => acc ++ [s]
        | none => acc
      parseBlockLoop f acc' r.2.nextToken
    else (acc, p)

/-- `Parser.parseFunctionExpression`: `fn ( params ) { body }`. -/
def parseFunctionExpression : Nat → ParserS → Option Ast × ParserS
  | 0, p => (none, p)
  | f + 1, p =>
    match expectPeek .LPAREN p with
    | (false, p') => (none, p')
    | (true, p') =>
      let rp := parseFunctionParameters f p'
      match expectPeek .LBRACE rp.2 with
      | (false, p₂) => (none, p₂)
      | (true, p₂) =>
        let rb := parseBlockStatement f p₂
        (some (.FunctionLiteral rp.1 (some rb.1)), rb.2)

/-- `Parser.parseFunctionParameters`: a comma-separated identifier list;
both the void-parameter case and an `expectPeek` failure return Go's nil
slice (`none`). -/
def parseFunctionParameters : Nat → ParserS → Option (List (List Nat)) × ParserS
  | 0, p => (none, p)
  | f + 1, p =>
    if p.peekToken.ttype = .RPAREN then (none, p.nextToken)
    else
      let p' := p.nextToken
      let first := p'.curToken.literal
      let r := parseParamsLoop f [first] p'
      match r.1 with
      | none => (none, r.2)
      | some ids => (some ids, r.2)

/-- The comma loop of `parseFunctionParameters`, ending at the required `)`. -/
def parseParamsLoop : Nat → List (List Nat) → ParserS → Option (List (List Nat)) × ParserS
  | 0, acc, p => (some acc, p)
  | f + 1, acc, p =>
    if p.peekToken.ttype = .COMMA then
      let p' := p.nextToken.nextToken
      parseParamsLoop f (acc ++ [p'.curToken.literal]) p'
    else
      match expectPeek .RPAREN p with
      | (false, p') => (none, p')
      | (true, p') => (some acc, p')

/-- `Parser.parseCallExpression` (infix handler for `(`): wrap the callee
and its argument list. -/
def parseCallExpression : Nat → Option Ast → ParserS → Option Ast × ParserS
  | 0, _, p => (none, p)
  | f + 1, function, p =>
    let r := parseCallArguments f p
    (some (.CallExpression function r.1), r.2)

/-- `Parser.parseCallArguments`: comma-separated expressions ending at `)`;
the void case and an `expectPeek` failure return Go's nil slice (`none`). -/
def parseCallArguments : Nat → ParserS → Option (List (Option Ast)) × ParserS
  | 0, p => (none, p)
  | f + 1, p =>
    if p.peekToken.ttype = .RPAREN then (none, p.nextToken)
    else
      let p' := p.nextToken
      let r := parseExpression f LOWEST p'
      let ra := parseArgsLoop f [r.1] r.2
      match ra.1 with
      | none => (none, ra.2)
      | some args => (some args, ra.2)

/-- The comma loop of `parseCallArguments`, ending at the required `)`. -/
def parseArgsLoop : Nat → List (Option Ast) → ParserS → Option (List (Option Ast)) × ParserS
  | 0, acc, p => (some acc, p)
  | f + 1, acc, p =>
    if p.peekToken.ttype = .COMMA then
      let p' := p.nextToken.nextToken
      let r := parseExpression f LOWEST p'
      parseArgsLoop f (acc ++ [r.1]) r.2
    else
      match expectPeek .RPAREN p with
      | (false, p') => (none, p')
      | (true, p') => (some acc, p')

/-- The statement loop of `Parser.ParseProgram`: one statement per
iteration until the current token is `EOF`, appending non-nil interface
results (every branch of `parseStatement` returns a non-nil interface, so
the append condition never filters). -/
def parseProgramLoop : Nat → List Ast → ParserS → List Ast × ParserS
  | 0, acc, p => (acc, p)
  | f + 1, acc, p =>
    if p.curToken.ttype = .EOF then (acc, p)
    else
      let r := parseStatement f p
      let acc' :=
        match r.1 with
        | some s => acc ++ [s]
        | none => acc
      parseProgramLoop f acc' r.2.nextToken

end

/-- `Parser.ParseProgram`: run the statement loop from the primed parser
state and wrap the results in a `Program` node. -/
def ParseProgram (p : ParserS) : Ast × ParserS :=
  let r := parseProgramLoop (p.l.input.length + 64) [] p
  (.Program r.1, r.2)

/-- Parse a source string: the resulting `Program` node. -/
def parseProgramOf (s : String) : Ast := (ParseProgram (ParserS.New (strBytes s))).1

/-- Parse a source string: the accumulated parser error strings. -/
def parseErrorsOf (s : String) : List (List Nat) :=
  (ParseProgram (ParserS.New (strBytes s))).2.errors

/-
  The runtime value model (package `sugiru/object`) and the evaluator of
  src/unnamed/part_000 (package `sugiru/evaluator`).

  Modelled from the spec: the `sugiru/object` package is not under `src/`.
  §3 gives the variants `Integer{Value: int64}`, `Boolean{Value: bool}`,
  `Null`, reached in Go through pointers; pointer identity is modelled by
  an address tag on the `Boolean` and `Null` variants.  The three
  process-wide singletons `NULL`, `TRUE`, `FALSE` occupy the fixed
  addresses 0, 1, 2; a fresh `&object.Boolean{...}` or `&object.Null{}`
  allocation would carry a different address, and the evaluator under
  `src/` performs none.  Integer cells are allocated fresh at every use and
  no claim concerns their identity, so they carry no address.
-/
inductive ObjType where
  | INTEGER_OBJ
  | BOOLEAN_OBJ
  | NULL_OBJ
  deriving DecidableEq, Repr

/-- The runtime value variants of the `object` package. -/
inductive Obj where
  | Integer (value : Int)
  | Boolean (value : Bool) (addr : Nat)
  | Null (addr : Nat)
  deriving DecidableEq, Repr

/-- `Object.Type()`. -/
def Obj.otype : Obj → ObjType
  | .Integer _ => .INTEGER_OBJ
  | .Boolean _ _ => .BOOLEAN_OBJ
  | .Null _ => .NULL_OBJ

/-- The shared `NULL` singleton. -/
def NULL : Obj := .Null 0

/-- The shared `TRUE` singleton. -/
def TRUE : Obj := .Boolean true 1

/-- The shared `FALSE` singleton. -/
def FALSE : Obj := .Boolean false 2

/-- `evaluator.nativeBoolToBooleanObject`: map a Go bool to the shared
singletons. -/
def nativeBoolToBooleanObject (input : Bool) : Obj := if input then TRUE else FALSE

/-- The outcome of running `Eval`: either a returned `object.Object`
(`ok`, with `none` for Go's nil interface) or a runtime panic of the host
(`fault`: integer division by zero, or a nil dereference). -/
inductive EvalResult where
  | fault
  | ok (v : Option Obj)
  deriving DecidableEq, Repr

/-- `evaluator.evalIntegerInfixExpression`: `+ - / *` on the two int64
values (Go wraps on overflow; `/` truncates toward zero and panics on a
zero divisor; Go defines MinInt64 / -1 as wrapping to MinInt64, which
`wrap64 ∘ Int.tdiv` reproduces); any other operator yields `NULL`.  The
type assertions panic unless both arguments are `Integer`; the only
caller guards this. -/
def evalIntegerInfixExpression (operator : List Nat) (left right : Obj) : EvalResult :=
  match left, right with
  | .Integer leftVal, .Integer rightVal =>
    if operator = strBytes "+" then .ok (some (.Integer (wrap64 (leftVal + rightVal))))
    else if operator = strBytes "-" then .ok (some (.Integer (wrap64 (leftVal - rightVal))))
    else if operator = strBytes "/" then
      if rightVal = 0 then .fault
      else .ok (some (.Integer (wrap64 (Int.tdiv leftVal rightVal))))
    else if operator = strBytes "*" then .ok (some (.Integer (wrap64 (leftVal * rightVal))))
    else .ok (some NULL)
  | _, _ => .fault

/-- `evaluator.evalInfixExpression`: dispatch on the combined operand
types; only Integer/Integer is implemented, everything else yields the
shared `NULL`.  `left.Type()` (and, when `left` is an Integer,
`right.Type()`) dereferences a nil interface and panics. -/
def evalInfixExpression (operator : List Nat) (left right : Option Obj) : EvalResult :=
  match left with
  | none => .fault
  | some lo =>
    if lo.otype = .INTEGER_OBJ then
      match right with
      | none => .fault
      | some ro =>
        if ro.otype = .INTEGER_OBJ then evalIntegerInfixExpression operator lo ro
        else .ok (some NULL)
    else .ok (some NULL)

/-- `evaluator.evalBangOperatorExpression`: `TRUE ↦ FALSE`, `FALSE ↦ TRUE`,
`NULL ↦ FALSE`, default `FALSE`.  The Go `switch right` compares interface
identity, i.e. both value and address. -/
def evalBangOperatorExpression (right : Option Obj) : EvalResult :=
  if right = some TRUE then .ok (some FALSE)
  else if right = some FALSE then .ok (some TRUE)
  else if right = some NULL then .ok (some FALSE)
  else .ok (some FALSE)

/-- `evaluator.evalMinusPrefixOperatorExpression`: non-Integer operands
yield `NULL`; an Integer is negated into a fresh cell.  `right.Type()` on
a nil interface panics. -/
def evalMinusPrefixOperatorExpression (right : Option Obj) : EvalResult :=
  match right with
  | none => .fault
  | some o =>
    if o.otype ≠ .INTEGER_OBJ then .ok (some NULL)
    else
      match o with
      | .Integer value => .ok (some (.Integer (wrap64 (-value))))
      | _ => .fault

/-- `evaluator.evalPrefixExpression`: dispatch on the operator string;
unknown operators yield `NULL`. -/
def evalPrefixExpression (operator : List Nat) (right : Option Obj) : EvalResult :=
  if operator = strBytes "!" then evalBangOperatorExpression right
  else if operator = strBytes "-" then evalMinusPrefixOperatorExpression right
  else .ok (some NULL)

mutual

/-- `evaluator.Eval` of src/unnamed/part_000: a type switch over the node.
Its cases are exactly `IntegerLiteral`, `Boolean`, `Program`,
`ExpressionStatement`, `PrefixExpression`, `InfixExpression`; every other
node kind (including `BlockStatement`) falls through and returns Go's
nil (`ok none`).  A panic in a subevaluation propagates (`fault`). -/
def Eval : Ast → EvalResult
  | .IntegerLiteral value => .ok (some (.Integer value))
  | .Boolean value => .ok (some (nativeBoolToBooleanObject value))
  | .Program statements => evalStatements statements
  | .ExpressionStatement expression => EvalOpt expression
  | .PrefixExpression operator right =>
    match EvalOpt right with
    | .fault => .fault
    | .ok r => evalPrefixExpression operator r
  | .InfixExpression operator left right =>
    match EvalOpt left with
    | .fault => .fault
    | .ok lv =>
      match EvalOpt right with
      | .fault => .fault
      | .ok rv => evalInfixExpression operator lv rv
  | _ => .ok none

/-- `Eval` applied to a possibly-nil child: Go's `Eval(nil)` matches no
case of the type switch and returns nil. -/
def EvalOpt : Option Ast → EvalResult
  | none => .ok none
  | some a => Eval a

/-- `evaluator.evalStatements`: evaluate each statement in order into the
same `result` variable and return its final value (nil for an empty
list); a panic mid-loop propagates. -/
def evalStatements : List Ast → EvalResult
  | [] => .ok none
  | s :: rest =>
    match Eval s with
    | .fault => .fault
    | .ok v =>
      match rest with
      | [] => .ok v
      | _ :: _ => evalStatements rest

end

/-
  Lexer cursor invariant: every state reachable from `Lexer.New` keeps
  `readPosition` one past `position` and `ch` equal to the byte at
  `position` (0 past the end).  Under it, the fuel `input.length + 1`
  passed to every `readWhile` loop is sufficient.
-/

/-- The cursor invariant of reachable lexer states. -/
def lexInv (l : Lexer) : Prop :=
  l.readPosition = l.position + 1 ∧
  l.ch = (if l.input.length ≤ l.position then 0 else l.input.getD l.position 0)

theorem readChar_inv (l : Lexer) : lexInv l.readChar := by
  constructor <;> simp [Lexer.readChar]

theorem readChar_input (l : Lexer) : l.readChar.input = l.input := rfl

theorem readChar_position (l : Lexer) : l.readChar.position = l.readPosition := rfl

theorem New_inv (input : List Nat) : lexInv (Lexer.New input) := readChar_inv _

theorem readWhile_inv (p : Nat → Bool) :
    ∀ (f : Nat) (l : Lexer), lexInv l →
      lexInv (readWhile p f l) ∧ (readWhile p f l).input = l.input ∧
      l.position ≤ (readWhile p f l).position := by
  intro f
  induction f with
  | zero => intro l h; exact ⟨h, rfl, le_refl _⟩
  | succ f ih =>
    intro l h
    by_cases hp : p l.ch = true
    · have h2 := ih l.readChar (readChar_inv l)
      have hpos : l.readChar.position = l.position + 1 := by
        rw [readChar_position]; exact h.1
      simp only [readWhile, hp, if_true]
      refine ⟨h2.1, h2.2.1.trans (readChar_input l), ?_⟩
      have := h2.2.2
      omega
    · simp only [readWhile, hp, if_false]
      exact ⟨h, rfl, le_refl _⟩

theorem readWhile_stops (p : Nat → Bool) (hp0 : p 0 = false) :
    ∀ (f : Nat) (l : Lexer), lexInv l → l.input.length + 1 ≤ f + l.position →
      p ((readWhile p f l).ch) = false := by
  intro f
  induction f with
  | zero =>
    intro l h hf
    have hle : l.input.length ≤ l.position := by omega
    have hch : l.ch = 0 := by rw [h.2, if_pos hle]
    simpa [readWhile, hch] using hp0
  | succ f ih =>
    intro l h hf
    by_cases hp : p l.ch = true
    · have hlt : ¬ l.input.length ≤ l.position := by
        intro hle
        rw [h.2, if_pos hle, hp0] at hp
        exact Bool.false_ne_true hp
      have hpos : l.readChar.position = l.position + 1 := by
        rw [readChar_position]; exact h.1
      have := ih l.readChar (readChar_inv l) (by rw [readChar_input, hpos]; omega)
      simpa [readWhile, hp] using this
    · have hB : p l.ch = false := by simpa using hp
      simp [readWhile, hB]

theorem readWhile_progress (p : Nat → Bool) (f : Nat) (l : Lexer) (h : lexInv l)
    (hp : p l.ch = true) (hf : 1 ≤ f) :
    l.position < (readWhile p f l).position := by
  obtain ⟨f', rfl⟩ : ∃ f', f = f' + 1 := ⟨f - 1, by omega⟩
  have h2 := (readWhile_inv p f' l.readChar (readChar_inv l)).2.2
  have hpos : l.readChar.position = l.position + 1 := by
    rw [readChar_position]; exact h.1
  simp only [readWhile, hp, if_true]
  omega

theorem readWhile_id (p : Nat → Bool) (f : Nat) (l : Lexer) (hp : p l.ch = false) :
    readWhile p f l = l := by
  cases f <;> simp [readWhile, hp]

theorem sws_facts (l : Lexer) (h : lexInv l) :
    lexInv l.skipWhiteSpace ∧ l.skipWhiteSpace.input = l.input ∧
    l.position ≤ l.skipWhiteSpace.position ∧ isWhitespaceB l.skipWhiteSpace.ch = false := by
  have h1 := readWhile_inv isWhitespaceB (l.input.length + 1) l h
  have h2 := readWhile_stops isWhitespaceB (by decide) (l.input.length + 1) l h (by omega)
  exact ⟨h1.1, h1.2.1, h1.2.2, h2⟩

theorem sws_id (l : Lexer) (hp : isWhitespaceB l.ch = false) : l.skipWhiteSpace = l :=
  readWhile_id _ _ _ hp

set_option maxHeartbeats 1600000 in
theorem nextTokenCore_facts (m : Lexer) (h1 : lexInv m) :
    lexInv m.nextTokenCore.2 ∧ m.nextTokenCore.2.input = m.input ∧
    m.position < m.nextTokenCore.2.position := by
  have hrc : m.readChar.position = m.position + 1 := by
    rw [readChar_position]; exact h1.1
  have hstep : lexInv m.readChar ∧ m.readChar.input = m.input ∧
      m.position < m.readChar.position :=
    ⟨readChar_inv _, rfl, by omega⟩
  have hletter : ∀ hL : isLetter m.ch = true,
      lexInv m.readIdentifier.2 ∧ m.readIdentifier.2.input = m.input ∧
      m.position < m.readIdentifier.2.position := by
    intro hL
    have hi := readWhile_inv isLetter (m.input.length + 1) m h1
    have hpr := readWhile_progress isLetter (m.input.length + 1) m h1 hL (by omega)
    simp only [Lexer.readIdentifier]
    exact ⟨hi.1, hi.2.1, hpr⟩
  have hdigit : ∀ hD : isDigit m.ch = true,
      lexInv m.readNumber.2 ∧ m.readNumber.2.input = m.input ∧
      m.position < m.readNumber.2.position := by
    intro hD
    have hi := readWhile_inv isDigit (m.input.length + 1) m h1
    have hpr := readWhile_progress isDigit (m.input.length + 1) m h1 hD (by omega)
    simp only [Lexer.readNumber]
    exact ⟨hi.1, hi.2.1, hpr⟩
  have aux : ∀ t : Token × Lexer, t = m.nextTokenCore →
      lexInv t.2 ∧ t.2.input = m.input ∧ m.position < t.2.position := by
    intro t ht
    unfold Lexer.nextTokenCore at ht
    by_cases h61 : m.ch = 61
    · rw [if_pos h61] at ht; subst ht; exact hstep
    · rw [if_neg h61] at ht
      by_cases h59 : m.ch = 59
      · rw [if_pos h59] at ht; subst ht; exact hstep
      · rw [if_neg h59] at ht
        by_cases h40 : m.ch = 40
        · rw [if_pos h40] at ht; subst ht; exact hstep
        · rw [if_neg h40] at ht
          by_cases h41 : m.ch = 41
          · rw [if_pos h41] at ht; subst ht; exact hstep
          · rw [if_neg h41] at ht
            by_cases h44 : m.ch = 44
            · rw [if_pos h44] at ht; subst ht; exact hstep
            · rw [if_neg h44] at ht
              by_cases h43 : m.ch = 43
              · rw [if_pos h43] at ht; subst ht; exact hstep
              · rw [if_neg h43] at ht
                by_cases h123 : m.ch = 123
                · rw [if_pos h123] at ht; subst ht; exact hstep
                · rw [if_neg h123] at ht
                  by_cases h125 : m.ch = 125
                  · rw [if_pos h125] at ht; subst ht; exact hstep
                  · rw [if_neg h125] at ht
                    by_cases h0 : m.ch = 0
                    · rw [if_pos h0] at ht; subst ht; exact hstep
                    · rw [if_neg h0] at ht
                      by_cases hL : isLetter m.ch = true
                      · rw [if_pos hL] at ht; subst ht; exact hletter hL
                      · rw [if_neg hL] at ht
                        by_cases hD : isDigit m.ch = true
                        · rw [if_pos hD] at ht; subst ht; exact hdigit hD
                        · rw [if_neg hD] at ht
                          subst ht; exact hstep
  exact aux _ rfl

theorem NextToken_eof (l : Lexer) (h : lexInv l) (hpos : l.input.length ≤ l.position) :
    (Lexer.NextToken l).1 = { ttype := .EOF, literal := [] } ∧
    lexInv (Lexer.NextToken l).2 ∧ (Lexer.NextToken l).2.input = l.input ∧
    l.input.length ≤ (Lexer.NextToken l).2.position := by
  have hch : l.ch = 0 := by rw [h.2, if_pos hpos]
  have hws : isWhitespaceB l.ch = false := by rw [hch]; decide
  have hid : l.skipWhiteSpace = l := sws_id l hws
  have hrp : l.readChar.position = l.position + 1 := by
    rw [readChar_position]; exact h.1
  simp only [Lexer.NextToken, hid, Lexer.nextTokenCore, hch]
  norm_num
  exact ⟨readChar_inv l, rfl, by omega⟩

theorem NextToken_progress (l : Lexer) (h : lexInv l) :
    lexInv (Lexer.NextToken l).2 ∧ (Lexer.NextToken l).2.input = l.input ∧
    l.position < (Lexer.NextToken l).2.position := by
  obtain ⟨h1, hin, hpos, hws⟩ := sws_facts l h
  have hc := nextTokenCore_facts l.skipWhiteSpace h1
  simp only [Lexer.NextToken]
  exact ⟨hc.1, hc.2.1.trans hin, by have := hc.2.2; omega⟩

theorem stateAt_facts (input : List Nat) :
    ∀ n, lexInv (lexStateAt (Lexer.New input) n) ∧
      (lexStateAt (Lexer.New input) n).input = input ∧
      n ≤ (lexStateAt (Lexer.New input) n).position := by
  intro n
  induction n with
  | zero => exact ⟨New_inv input, rfl, Nat.zero_le _⟩
  | succ n ih =>
    have hp := NextToken_progress _ ih.1
    refine ⟨hp.1, hp.2.1.trans ih.2.1, ?_⟩
    have h1 := hp.2.2
    have h2 := ih.2.2
    simp only [lexStateAt] at h1 ⊢
    omega

/-- C8: for every finite input, the token stream of
src/sugiru/lexer/lexer.go is total and reaches an end-of-input token
within `input.length + 1` calls (call number `i + 1` returns `lexTokenAt i`,
and some `i ≤ input.length` returns EOF); moreover once the cursor has
passed the end of the input, every further call returns the EOF token
(empty literal) again and leaves the cursor past the end. -/
theorem C8_nextToken_finite_eof (input : List Nat) :
    (∃ i, i ≤ input.length ∧
      lexTokenAt (Lexer.New input) i = { ttype := .EOF, literal := [] }) ∧
    ∀ n, input.length ≤ (lexStateAt (Lexer.New input) n).position →
      lexTokenAt (Lexer.New input) n = { ttype := .EOF, literal := [] } ∧
      input.length ≤ (lexStateAt (Lexer.New input) (n + 1)).position := by
  have hfacts := stateAt_facts input
  constructor
  · refine ⟨input.length, le_refl _, ?_⟩
    have h := hfacts input.length
    have he := NextToken_eof _ h.1 (by rw [h.2.1]; exact h.2.2)
    exact he.1
  · intro n hn
    have h := hfacts n
    have he := NextToken_eof _ h.1 (by rw [h.2.1]; exact hn)
    refine ⟨he.1, ?_⟩
    have := he.2.2.2
    rwa [h.2.1] at this

/-- Witness for C8 at the concrete input "5": the second call (after the
INT token has consumed the digit) returns the EOF token. -/
theorem C8_witness : lexTokenAt (Lexer.New [53]) 1 = { ttype := .EOF, literal := [] } :=
  ((C8_nextToken_finite_eof [53]).2 1 (by decide)).1

/-- C1 counterexample: the claim asserts that `Lexer.NextToken` of
src/sugiru/lexer/lexer.go returns a MINUS token at the byte `-`; that
`NextToken` has no case for `-` (nor for `! * / < >` or the two-character
sequences), so the byte `-` falls to the default branch and yields an
ILLEGAL token instead. -/
theorem C1_counterexample :
    (Lexer.NextToken (Lexer.New (strBytes "-"))).1 =
      { ttype := .ILLEGAL, literal := strBytes "-" } ∧
    TokenType.ILLEGAL ≠ TokenType.MINUS := by decide

/-- C1 amended: `Lexer.NextToken` of src/sugiru/lexer/lexer.go matches only
the eight single-character tokens `=` `;` `(` `)` `,` `+` `{` `}`; every
byte that is not one of those eight, not a letter, digit or whitespace,
and not NUL — in particular each of `- ! * / < >` — produces an ILLEGAL
token holding that single byte, and `==` lexes as two ASSIGN tokens
rather than an equality token. -/
theorem C1_amended_single_char_lexing :
    ((Lexer.NextToken (Lexer.New [61])).1 = { ttype := .ASSIGN, literal := [61] } ∧
      (Lexer.NextToken (Lexer.New [59])).1 = { ttype := .SEMICOLON, literal := [59] } ∧
      (Lexer.NextToken (Lexer.New [40])).1 = { ttype := .LPAREN, literal := [40] } ∧
      (Lexer.NextToken (Lexer.New [41])).1 = { ttype := .RPAREN, literal := [41] } ∧
      (Lexer.NextToken (Lexer.New [44])).1 = { ttype := .COMMA, literal := [44] } ∧
      (Lexer.NextToken (Lexer.New [43])).1 = { ttype := .PLUS, literal := [43] } ∧
      (Lexer.NextToken (Lexer.New [123])).1 = { ttype := .LBRACE, literal := [123] } ∧
      (Lexer.NextToken (Lexer.New [125])).1 = { ttype := .RBRACE, literal := [125] }) ∧
    (∀ c : Nat, isLetter c = false → isDigit c = false → isWhitespaceB c = false →
      c ≠ 0 → c ≠ 61 → c ≠ 59 → c ≠ 40 → c ≠ 41 → c ≠ 44 → c ≠ 43 → c ≠ 123 → c ≠ 125 →
      (Lexer.NextToken (Lexer.New [c])).1 = { ttype := .ILLEGAL, literal := [c] }) ∧
    (lexTokenAt (Lexer.New [61, 61]) 0 = { ttype := .ASSIGN, literal := [61] } ∧
      lexTokenAt (Lexer.New [61, 61]) 1 = { ttype := .ASSIGN, literal := [61] }) := by
  refine ⟨by decide, ?_, by decide⟩
  intro c hl hd hw h0 h61 h59 h40 h41 h44 h43 h123 h125
  have hnew : Lexer.New [c] = ⟨[c], 0, 1, c⟩ := rfl
  have hws : isWhitespaceB (⟨[c], 0, 1, c⟩ : Lexer).ch = false := hw
  have hsk : Lexer.skipWhiteSpace ⟨[c], 0, 1, c⟩ = ⟨[c], 0, 1, c⟩ := sws_id _ hws
  simp only [Lexer.NextToken, hnew, hsk, Lexer.nextTokenCore]
  simp [h61, h59, h40, h41, h44, h43, h123, h125, h0, hl, hd, newToken]

/-- Witness for the amended C1 at the byte `-` (45): it lexes as ILLEGAL. -/
theorem C1_witness :
    (Lexer.NextToken (Lexer.New [45])).1 = { ttype := .ILLEGAL, literal := [45] } :=
  C1_amended_single_char_lexing.2.1 45 (by decide) (by decide) (by decide) (by decide)
    (by decide) (by decide) (by decide) (by decide) (by decide) (by decide) (by decide)
    (by decide)

/-- The canonical-singleton property of an evaluation outcome: a returned
Boolean is one of the shared `TRUE`/`FALSE` singletons (value and address)
and a returned Null is the shared `NULL` singleton. -/
def canonicalResult : EvalResult → Prop
  | .ok (some (.Boolean b a)) => (b = true ∧ a = 1) ∨ (b = false ∧ a = 2)
  | .ok (some (.Null a)) => a = 0
  | _ => True

theorem evalBang_canonical (r : Option Obj) :
    canonicalResult (evalBangOperatorExpression r) := by
  unfold evalBangOperatorExpression
  split_ifs
  · exact Or.inr ⟨rfl, rfl⟩
  · exact Or.inl ⟨rfl, rfl⟩
  · exact Or.inr ⟨rfl, rfl⟩
  · exact Or.inr ⟨rfl, rfl⟩

theorem evalMinus_canonical (r : Option Obj) :
    canonicalResult (evalMinusPrefixOperatorExpression r) := by
  cases r with
  | none => trivial
  | some o =>
    cases o <;> simp [evalMinusPrefixOperatorExpression, Obj.otype, canonicalResult, NULL]

theorem evalIntegerInfix_canonical (op : List Nat) (l r : Obj) :
    canonicalResult (evalIntegerInfixExpression op l r) := by
  rcases l with a | ⟨b1, a1⟩ | a1 <;> rcases r with a2 | ⟨b2, a2⟩ | a2 <;>
    simp only [evalIntegerInfixExpression] <;> try trivial
  split_ifs <;> trivial

theorem evalInfix_canonical (op : List Nat) (l r : Option Obj) :
    canonicalResult (evalInfixExpression op l r) := by
  cases l with
  | none => trivial
  | some lo =>
    by_cases hl : lo.otype = .INTEGER_OBJ
    · cases r with
      | none => simp [evalInfixExpression, hl, canonicalResult]
      | some ro =>
        by_cases hr : ro.otype = .INTEGER_OBJ
        · simpa [evalInfixExpression, hl, hr] using evalIntegerInfix_canonical op lo ro
        · simp [evalInfixExpression, hl, hr, canonicalResult, NULL]
    · simp [evalInfixExpression, hl, canonicalResult, NULL]

theorem evalPrefix_canonical (op : List Nat) (r : Option Obj) :
    canonicalResult (evalPrefixExpression op r) := by
  unfold evalPrefixExpression
  split_ifs
  · exact evalBang_canonical r
  · exact evalMinus_canonical r
  · trivial

mutual

theorem Eval_canonical : ∀ a : Ast, canonicalResult (Eval a)
  | .Program stmts => evalStatements_canonical stmts
  | .LetStatement _ _ => trivial
  | .LetStatementNil => trivial
  | .ReturnStatement _ => trivial
  | .ExpressionStatement e => EvalOpt_canonical e
  | .BlockStatement _ => trivial
  | .Identifier _ => trivial
  | .IntegerLiteral _ => trivial
  | .Boolean b => by
    cases b with
    | false => exact Or.inr ⟨rfl, rfl⟩
    | true => exact Or.inl ⟨rfl, rfl⟩
  | .PrefixExpression op r => by
    cases hE : EvalOpt r with
    | fault => simp [Eval, hE, canonicalResult]
    | ok v => simpa [Eval, hE] using evalPrefix_canonical op v
  | .InfixExpression op l r => by
    cases hL : EvalOpt l with
    | fault => simp [Eval, hL, canonicalResult]
    | ok lv =>
      cases hR : EvalOpt r with
      | fault => simp [Eval, hL, hR, canonicalResult]
      | ok rv => simpa [Eval, hL, hR] using evalInfix_canonical op lv rv
  | .IfExpression _ _ _ => trivial
  | .FunctionLiteral _ _ => trivial
  | .CallExpression _ _ => trivial

theorem EvalOpt_canonical : ∀ o : Option Ast, canonicalResult (EvalOpt o)
  | none => trivial
  | some a => Eval_canonical a

theorem evalStatements_canonical : ∀ l : List Ast, canonicalResult (evalStatements l)
  | [] => trivial
  | s :: rest => by
    have h1 := Eval_canonical s
    cases hE : Eval s with
    | fault => simp [evalStatements, hE, canonicalResult]
    | ok v =>
      cases rest with
      | nil =>
        rw [hE] at h1
        simpa [evalStatements, hE] using h1
      | cons b bs =>
        have h2 := evalStatements_canonical (b :: bs)
        simpa [evalStatements, hE] using h2

end

/-- C9: every Boolean value returned by `Eval` on any AST node is one of
the two canonical shared Boolean singletons and every Null result is the
single shared `NULL` singleton; the evaluator constructs no fresh Boolean
or Null instance on any input node. -/
theorem C9_shared_singletons : ∀ node : Ast, canonicalResult (Eval node) :=
  Eval_canonical

theorem evalStatements_last :
    ∀ (stmts : List Ast) (h : stmts ≠ []), (∀ s ∈ stmts, Eval s ≠ .fault) →
      evalStatements stmts = Eval (stmts.getLast h)
  | [], h, _ => absurd rfl h
  | [s], _, _ => by
    cases hE : Eval s with
    | fault => simp [evalStatements, hE]
    | ok v => simp [evalStatements, hE]
  | s :: b :: bs, _, hf => by
    have hs : Eval s ≠ .fault := hf s (List.mem_cons_self s _)
    have hrest : ∀ x ∈ b :: bs, Eval x ≠ .fault := fun x hx =>
      hf x (List.mem_cons_of_mem s hx)
    have ih := evalStatements_last (b :: bs) (List.cons_ne_nil b bs) hrest
    cases hE : Eval s with
    | fault => exact absurd hE hs
    | ok v =>
      rw [List.getLast_cons (List.cons_ne_nil b bs)]
      simpa [evalStatements, hE] using ih

/-- C3 counterexample: `Eval` of src/unnamed/part_000 has no
`BlockStatement` case, so a non-empty block does not evaluate to its last
statement's value: the block `{ 5 }` evaluates to Go's nil while its last
statement evaluates to Integer 5. -/
theorem C3_counterexample :
    Eval (.BlockStatement [.ExpressionStatement (some (.IntegerLiteral 5))]) ≠
      Eval (.ExpressionStatement (some (.IntegerLiteral 5))) := by decide

/-- C3 amended: for every non-empty `Program` node whose statements all
evaluate without the unguarded division-by-zero fault, `Eval` returns
exactly the value of the last statement (earlier values are discarded);
`BlockStatement`, by contrast, is unhandled by `Eval` and always yields
Go's nil rather than a runtime value. -/
theorem C3_program_last_value :
    (∀ (stmts : List Ast) (h : stmts ≠ []), (∀ s ∈ stmts, Eval s ≠ .fault) →
      Eval (.Program stmts) = Eval (stmts.getLast h)) ∧
    ∀ stmts : List Ast, Eval (.BlockStatement stmts) = .ok none := by
  constructor
  · intro stmts h hf
    simpa [Eval] using evalStatements_last stmts h hf
  · intro stmts
    simp [Eval]

/-- Witness for C3 at the two-statement program `1; 2`: its value is the
value of the last statement. -/
theorem C3_witness :
    Eval (.Program [.ExpressionStatement (some (.IntegerLiteral 1)),
        .ExpressionStatement (some (.IntegerLiteral 2))]) =
      Eval ([Ast.ExpressionStatement (some (.IntegerLiteral 1)),
        Ast.ExpressionStatement (some (.IntegerLiteral 2))].getLast
        (List.cons_ne_nil _ _)) :=
  C3_program_last_value.1 _ (List.cons_ne_nil _ _) (by decide)

/-- C4: an `InfixExpression` whose operands evaluate to Integers applies
`+ - * /` with exact two's-complement int64 semantics (wrap-around on
overflow, `/` truncating toward zero) when the divisor is nonzero, and a
division whose right operand is Integer 0 is an unguarded fatal host
fault, not a returned value or reported error. -/
theorem C4_integer_arithmetic :
    ∀ (el er : Ast) (a b : Int),
      Eval el = .ok (some (.Integer a)) → Eval er = .ok (some (.Integer b)) →
      Eval (.InfixExpression (strBytes "+") (some el) (some er)) =
          .ok (some (.Integer (wrap64 (a + b)))) ∧
      Eval (.InfixExpression (strBytes "-") (some el) (some er)) =
          .ok (some (.Integer (wrap64 (a - b)))) ∧
      Eval (.InfixExpression (strBytes "*") (some el) (some er)) =
          .ok (some (.Integer (wrap64 (a * b)))) ∧
      (b ≠ 0 → Eval (.InfixExpression (strBytes "/") (some el) (some er)) =
          .ok (some (.Integer (wrap64 (Int.tdiv a b))))) ∧
      (b = 0 → Eval (.InfixExpression (strBytes "/") (some el) (some er)) = .fault) := by
  intro el er a b hl hr
  refine ⟨?_, ?_, ?_, fun hb => ?_, fun hb => ?_⟩
  · simp [Eval, EvalOpt, hl, hr, evalInfixExpression, Obj.otype,
      evalIntegerInfixExpression, strBytes]
  · simp [Eval, EvalOpt, hl, hr, evalInfixExpression, Obj.otype,
      evalIntegerInfixExpression, strBytes]
  · simp [Eval, EvalOpt, hl, hr, evalInfixExpression, Obj.otype,
      evalIntegerInfixExpression, strBytes]
  · simp [Eval, EvalOpt, hl, hr, evalInfixExpression, Obj.otype,
      evalIntegerInfixExpression, strBytes, hb]
  · simp [Eval, EvalOpt, hl, hr, evalInfixExpression, Obj.otype,
      evalIntegerInfixExpression, strBytes, hb]

/-- Witness for C4: `7 + 2` evaluates to Integer 9, and `5 / 0` is the
host fault. -/
theorem C4_witness :
    Eval (.InfixExpression (strBytes "+") (some (.IntegerLiteral 7))
        (some (.IntegerLiteral 2))) = .ok (some (.Integer (wrap64 (7 + 2)))) ∧
    Eval (.InfixExpression (strBytes "/") (some (.IntegerLiteral 5))
        (some (.IntegerLiteral 0))) = .fault :=
  ⟨(C4_integer_arithmetic (.IntegerLiteral 7) (.IntegerLiteral 2) 7 2 rfl rfl).1,
    (C4_integer_arithmetic (.IntegerLiteral 5) (.IntegerLiteral 0) 5 0 rfl rfl).2.2.2.2 rfl⟩

/-- C5: prefix `!` returns the shared `TRUE` singleton exactly when its
operand evaluates to the shared `FALSE` singleton and returns the shared
`FALSE` singleton for every other operand value; in particular `!true`
and `!5` both yield `FALSE` (no truthiness for integers). -/
theorem C5_bang_semantics :
    (∀ (e : Ast) (o : Obj), Eval e = .ok (some o) →
      Eval (.PrefixExpression (strBytes "!") (some e)) =
        .ok (some (if o = FALSE then TRUE else FALSE))) ∧
    Eval (.PrefixExpression (strBytes "!") (some (.Boolean true))) = .ok (some FALSE) ∧
    Eval (.PrefixExpression (strBytes "!") (some (.IntegerLiteral 5))) = .ok (some FALSE) := by
  refine ⟨?_, by decide, by decide⟩
  intro e o he
  have hstep : Eval (.PrefixExpression (strBytes "!") (some e)) =
      evalPrefixExpression (strBytes "!") (some o) := by
    simp [Eval, EvalOpt, he]
  rw [hstep]
  unfold evalPrefixExpression
  rw [if_pos rfl]
  unfold evalBangOperatorExpression
  by_cases h1 : o = TRUE
  · subst h1; simp [TRUE, FALSE]
  · by_cases h2 : o = FALSE
    · subst h2; simp [TRUE, FALSE]
    · by_cases h3 : o = NULL
      · subst h3; simp [TRUE, FALSE, NULL]
      · simp [h1, h2, h3]

/-- Witness for C5: `!false` evaluates to the shared `TRUE` singleton. -/
theorem C5_witness :
    Eval (.PrefixExpression (strBytes "!") (some (.Boolean false))) = .ok (some TRUE) := by
  have h := C5_bang_semantics.1 (.Boolean false) FALSE rfl
  simpa using h

/-- C6: the evaluator never reports an error for ill-typed operations —
prefix `-` on a non-Integer value yields the shared `NULL`, an infix
expression whose operands are not both Integers (boolean/boolean
included) yields `NULL`, and an operator other than `+ - * /` on two
Integers also yields `NULL`. -/
theorem C6_ill_typed_yields_null :
    (∀ (e : Ast) (o : Obj), Eval e = .ok (some o) → o.otype ≠ .INTEGER_OBJ →
      Eval (.PrefixExpression (strBytes "-") (some e)) = .ok (some NULL)) ∧
    (∀ (el er : Ast) (l r : Obj) (op : List Nat),
      Eval el = .ok (some l) → Eval er = .ok (some r) →
      ¬(l.otype = .INTEGER_OBJ ∧ r.otype = .INTEGER_OBJ) →
      Eval (.InfixExpression op (some el) (some er)) = .ok (some NULL)) ∧
    (∀ (el er : Ast) (a b : Int) (op : List Nat),
      Eval el = .ok (some (.Integer a)) → Eval er = .ok (some (.Integer b)) →
      op ≠ strBytes "+" → op ≠ strBytes "-" → op ≠ strBytes "*" → op ≠ strBytes "/" →
      Eval (.InfixExpression op (some el) (some er)) = .ok (some NULL)) := by
  refine ⟨?_, ?_, ?_⟩
  · intro e o he ho
    simp [Eval, EvalOpt, he, evalPrefixExpression, evalMinusPrefixOperatorExpression,
      ho, strBytes]
  · intro el er l r op hel her hno
    by_cases hl : l.otype = .INTEGER_OBJ
    · have hr : r.otype ≠ .INTEGER_OBJ := fun hr => hno ⟨hl, hr⟩
      simp [Eval, EvalOpt, hel, her, evalInfixExpression, hl, hr]
    · simp [Eval, EvalOpt, hel, her, evalInfixExpression, hl]
  · intro el er a b op hel her h1 h2 h3 h4
    simp [Eval, EvalOpt, hel, her, evalInfixExpression, Obj.otype,
      evalIntegerInfixExpression, h1, h2, h3, h4]

/-- Witness for C6: `-true`, `true == true` and `1 < 2` all evaluate to
the shared `NULL` singleton. -/
theorem C6_witness :
    Eval (.PrefixExpression (strBytes "-") (some (.Boolean true))) = .ok (some NULL) ∧
    Eval (.InfixExpression (strBytes "==") (some (.Boolean true))
      (some (.Boolean true))) = .ok (some NULL) ∧
    Eval (.InfixExpression (strBytes "<") (some (.IntegerLiteral 1))
      (some (.IntegerLiteral 2))) = .ok (some NULL) :=
  ⟨C6_ill_typed_yields_null.1 (.Boolean true) TRUE rfl (by decide),
    C6_ill_typed_yields_null.2.1 (.Boolean true) (.Boolean true) TRUE TRUE
      (strBytes "==") rfl rfl (by decide),
    C6_ill_typed_yields_null.2.2 (.IntegerLiteral 1) (.IntegerLiteral 2) 1 2
      (strBytes "<") rfl rfl (by decide) (by decide) (by decide) (by decide)⟩

/-- C2: parsing "-a * b", "a + b + c", "a + b * c" and "(a + b) * c" each
yields a single expression statement grouped as ((-a) * b), ((a + b) + c),
(a + (b * c)) and ((a + b) * c) respectively: prefix minus binds tighter
than `*`, equal-precedence chains associate left, `*` binds tighter than
`+`, and parentheses override precedence. -/
theorem C2_precedence_grouping :
    parseProgramOf "-a * b" =
      .Program [.ExpressionStatement (some (.InfixExpression (strBytes "*")
        (some (.PrefixExpression (strBytes "-") (some (.Identifier (strBytes "a")))))
        (some (.Identifier (strBytes "b")))))] ∧
    parseProgramOf "a + b + c" =
      .Program [.ExpressionStatement (some (.InfixExpression (strBytes "+")
        (some (.InfixExpression (strBytes "+") (some (.Identifier (strBytes "a")))
          (some (.Identifier (strBytes "b")))))
        (some (.Identifier (strBytes "c")))))] ∧
    parseProgramOf "a + b * c" =
      .Program [.ExpressionStatement (some (.InfixExpression (strBytes "+")
        (some (.Identifier (strBytes "a")))
        (some (.InfixExpression (strBytes "*") (some (.Identifier (strBytes "b")))
          (some (.Identifier (strBytes "c")))))))] ∧
    parseProgramOf "(a + b) * c" =
      .Program [.ExpressionStatement (some (.InfixExpression (strBytes "*")
        (some (.InfixExpression (strBytes "+") (some (.Identifier (strBytes "a")))
          (some (.Identifier (strBytes "b")))))
        (some (.Identifier (strBytes "c")))))] :=
  ⟨rfl, rfl, rfl, rfl⟩

/-- C7 counterexample: the claim asserts that the nil node of the failed
let statement is not appended; in fact `parseLetStatement` returns a
typed-nil `*ast.LetStatement` which, wrapped in the `ast.Statement`
interface by `parseStatement`, is a non-nil interface value, so
`ParseProgram`'s nil check does not filter it and the nil let node is
appended as the first statement. -/
theorem C7_counterexample :
    (programStatements (parseProgramOf "let x 5; let y = 10;")).head? =
      some Ast.LetStatementNil :=
  rfl

/-- C7 amended: parsing "let x 5; let y = 10;" records exactly the error
"expected next token to be =, got INT instead" (the expected token type
`=` and the type INT of the offending token whose literal is `5`); the
failed let statement yields a typed-nil node that IS appended (the
interface nil check cannot see the nil pointer inside it), and the
following well-formed statements are still parsed and appended — parsing
does not abort at the first error. -/
theorem C7_error_accumulation :
    parseProgramOf "let x 5; let y = 10;" =
      .Program [Ast.LetStatementNil,
        .ExpressionStatement (some (.IntegerLiteral 5)),
        .LetStatement (strBytes "y") (some (.IntegerLiteral 10))] ∧
    parseErrorsOf "let x 5; let y = 10;" =
      [strBytes "expected next token to be " ++ typeBytes .ASSIGN ++
        strBytes ", got " ++ typeBytes .INT ++ strBytes " instead"] ∧
    typeBytes .ASSIGN = strBytes "=" :=
  ⟨rfl, rfl, rfl⟩

/-- C10: a token with no registered prefix parse function (a lone `)`)
makes `parseExpression` record the "no prefix parse function" error and
return nil, yet `parseExpressionStatement` still returns a non-nil
`ExpressionStatement` whose expression field is nil, `ParseProgram`
appends that statement, and `Eval` on such a statement returns Go's nil
(the absence of a value) rather than any runtime value. -/
theorem C10_nil_expression_statement :
    parseProgramOf ")" = .Program [.ExpressionStatement none] ∧
    parseErrorsOf ")" =
      [strBytes "no prefix parse function for " ++ typeBytes .RPAREN ++
        strBytes " found"] ∧
    Eval (.ExpressionStatement none) = .ok none :=
  ⟨rfl, rfl, rfl⟩
